import Mathlib

/-!
Verification of the imu_3dm_gx4 protocol engine (src/imu.hpp).

The repository ships only the class header; the bodies of the protocol
routines are declared there and specified in the design document, so the
packet codec, stream demultiplexer, data decoder, command session and
configuration validation are modelled here from the specification text,
while the constants and record layouts present in the header (sync bytes,
field bitmask values, zero-initialized `fields` members, the supported
baud-rate list) are taken from the header itself.

Machine bytes are modelled as `Nat` with explicit `% 256` where the C++
`uint8_t` arithmetic wraps.
-/

namespace imu_3dm_gx4

/-- Sync constants from the header: `Packet::kSyncMSB = 0x75`. -/
def kSyncMSB : Nat := 0x75

/-- Sync constants from the header: `Packet::kSyncLSB = 0x65`. -/
def kSyncLSB : Nat := 0x65

/-- Logical content of a protocol frame: descriptor byte and payload bytes.
The sync bytes, length byte and checksum of the wire format are recomputed
by `Packet.encode`. -/
structure Packet where
  descriptor : Nat
  payload : List Nat
deriving DecidableEq

/-- Modelled from the spec: the fletcher-style checksum of
`Packet::calcChecksum` (body absent from src), two 8-bit accumulators where
the first adds each byte and the second adds the first, both wrapping mod
256, run over sync + descriptor + length + payload. -/
def calcChecksum (bytes : List Nat) : Nat × Nat :=
  bytes.foldl (fun s x =>
    let a := (s.1 + x) % 256
    (a, (s.2 + a) % 256)) (0, 0)

/-- Modelled from the spec: the wire encoding built by the Packet
constructor plus `calcChecksum`: sync bytes, descriptor, payload length,
payload, then the two checksum bytes high byte first. -/
def Packet.encode (p : Packet) : List Nat :=
  let body := kSyncMSB :: kSyncLSB :: p.descriptor % 256 :: p.payload.length % 256 :: p.payload
  body ++ [(calcChecksum body).1, (calcChecksum body).2]

/-- A candidate frame window is checksum-consistent: the checksum of all
bytes before the trailing two equals those trailing two bytes. -/
def checksumOk (w : List Nat) : Prop :=
  calcChecksum (w.take (w.length - 2)) = (w.getD (w.length - 2) 0, w.getD (w.length - 1) 0)

instance (w : List Nat) : Decidable (checksumOk w) := by
  unfold checksumOk
  infer_instance

/-- Modelled from the spec: `verify(bytes)` of the packet codec (no body in
src): a byte sequence is a valid frame when it is long enough, starts with
the two sync constants, its declared length matches its actual length, and
its checksum verifies; on success it decodes to descriptor and payload. -/
def Packet.verify (bytes : List Nat) : Option Packet :=
  if 6 ≤ bytes.length ∧ bytes.getD 0 0 = kSyncMSB ∧ bytes.getD 1 0 = kSyncLSB ∧
      bytes.length = 6 + bytes.getD 3 0 ∧ checksumOk bytes
  then some ⟨bytes.getD 2 0, (bytes.drop 4).take (bytes.getD 3 0)⟩
  else none

/-- Decision taken by the demultiplexer at one scan position: wait for more
data, move one byte forward, or emit the complete valid frame of the given
total size found here. -/
inductive Step where
  | block : Step
  | advance : Step
  | yieldFrame : Nat → Step
deriving DecidableEq

/-- Modelled from the spec: one scan decision of the stream demultiplexer
(the body of `Imu::handleRead` is absent from src). At queue position i the
scanner needs two bytes to test for the sync marker; on a sync match it
needs the descriptor and length bytes, then the whole candidate frame of
size header(4) + length + checksum(2); an invalid checksum makes the sync a
false positive and the scan advances a single byte. -/
def classify (buf : List Nat) (i : Nat) : Step :=
  if i + 1 < buf.length then
    if buf.getD i 0 = kSyncMSB ∧ buf.getD (i + 1) 0 = kSyncLSB then
      if i + 3 < buf.length then
        if i + (6 + buf.getD (i + 3) 0) ≤ buf.length then
          if checksumOk ((buf.drop i).take (6 + buf.getD (i + 3) 0)) then
            Step.yieldFrame (6 + buf.getD (i + 3) 0)
          else Step.advance
        else Step.block
      else Step.block
    else Step.advance
  else Step.block

/-- The decoded frame located at queue position i: descriptor byte at i+2,
payload bytes after the four header bytes, as many as the length byte at
i+3 declares. -/
def packetAt (buf : List Nat) (i : Nat) : Packet :=
  ⟨buf.getD (i + 2) 0, (buf.drop (i + 4)).take (buf.getD (i + 3) 0)⟩

/-- Modelled from the spec: the demultiplexer scan loop over the byte
queue, with explicit fuel (adequate fuel is supplied by `drain`). Returns
the validated frames in order together with the residual bytes that must
be kept for the next read: everything from the current scan position on.
Scanned prefix bytes before a block point can never again take part in a
frame, so they are dropped, exactly as step 2 of the spec algorithm
prescribes. -/
def drainAux : Nat → List Nat → Nat → List Packet × List Nat
  | 0, buf, i => ([], buf.drop i)
  | g + 1, buf, i =>
    match classify buf i with
    | Step.block => ([], buf.drop i)
    | Step.advance => drainAux g buf (i + 1)
    | Step.yieldFrame t =>
      (packetAt buf i :: (drainAux g (buf.drop (i + t)) 0).1,
       (drainAux g (buf.drop (i + t)) 0).2)

/-- Run the scan loop from the queue front with adequate fuel. -/
def drain (buf : List Nat) : List Packet × List Nat :=
  drainAux (2 * buf.length + 1) buf 0

/-- Modelled from the spec: one invocation of `Imu::handleRead` with newly
read bytes appends them to the retained queue and extracts every complete
valid frame. -/
def handleRead (buf chunk : List Nat) : List Packet × List Nat :=
  drain (buf ++ chunk)

/-- Feed a sequence of read chunks one call at a time, accumulating the
decoded frames in order and threading the retained queue through. -/
def runStream : List Nat → List (List Nat) → List Packet × List Nat
  | buf, [] => ([], buf)
  | buf, c :: cs =>
    let r := handleRead buf c
    let s := runStream r.2 cs
    (r.1 ++ s.1, s.2)

/-- IMU readings record from the header. The header stores decoded host
floats; since the wire values are opaque fixed-width big-endian bytes and
no claim concerns their numeric interpretation, each sensor slot here
keeps the raw payload bytes the decoder copied into it. `fields` is the
presence bitmask; the header constructor initializes it to 0 and leaves
the sensor slots at their defaults. -/
structure IMUData where
  fields : Nat := 0
  accel : List Nat := []
  gyro : List Nat := []
  mag : List Nat := []
  pressure : List Nat := []
  gpsTow : List Nat := []
  gpsWeek : List Nat := []
  gpsTimeStatus : List Nat := []
deriving DecidableEq

/-- Bitmask values from the header enum of IMUData. -/
def IMUData.Accelerometer : Nat := 1

def IMUData.Gyroscope : Nat := 2

def IMUData.Magnetometer : Nat := 4

def IMUData.Barometer : Nat := 8

def IMUData.GpsTime : Nat := 16

/-- Filter (estimator) readings record from the header, raw-byte slots as
for IMUData, each value slot paired with its status bytes. -/
structure FilterData where
  fields : Nat := 0
  quaternion : List Nat := []
  quaternionStatus : List Nat := []
  bias : List Nat := []
  biasStatus : List Nat := []
  angleUncertainty : List Nat := []
  angleUncertaintyStatus : List Nat := []
  biasUncertainty : List Nat := []
  biasUncertaintyStatus : List Nat := []
  gpsTow : List Nat := []
  gpsWeek : List Nat := []
  gpsTimeStatus : List Nat := []
deriving DecidableEq

/-- Bitmask values from the header enum of FilterData (the header spells
AngleUnertainty without the c). -/
def FilterData.Quaternion : Nat := 1

def FilterData.Bias : Nat := 2

def FilterData.AngleUnertainty : Nat := 4

def FilterData.BiasUncertainty : Nat := 8

def FilterData.GpsTime : Nat := 16

/-- Modelled from the spec: sub-field descriptor constants of the
streaming payloads (`Imu::processPacket` body absent from src); the exact
values are device-defined, only their distinctness within one message
family matters here. -/
def kFieldAccelData : Nat := 0x04

def kFieldGyroData : Nat := 0x05

def kFieldMagData : Nat := 0x06

def kFieldPressureData : Nat := 0x17

def kFieldImuGpsTimestamp : Nat := 0x12

def kFieldQuaternionData : Nat := 0x03

def kFieldBiasData : Nat := 0x06

def kFieldAngleUncertaintyData : Nat := 0x0A

def kFieldBiasUncertaintyData : Nat := 0x0B

def kFieldFilterGpsTimestamp : Nat := 0x11

/-- Modelled from the spec: the sub-field walk of the streaming-data
decoder. A payload is a concatenation of sub-fields, each prefixed by its
length byte (counting the two prefix bytes) and descriptor byte. A
declared length below the prefix size or past the end of the payload is a
decode error. Fuel is the payload length, adequate because every field
consumes at least two bytes. -/
def decodeFields : Nat → List Nat → Option (List (Nat × List Nat))
  | _, [] => some []
  | g + 1, len :: d :: rest =>
    if 2 ≤ len ∧ len - 2 ≤ rest.length then
      (decodeFields g (rest.drop (len - 2))).map
        (fun fs => (d, rest.take (len - 2)) :: fs)
    else none
  | _ + 1, [_] => none
  | 0, _ :: _ => none

/-- Modelled from the spec: dispatch of one IMU sub-field into the record,
setting the presence bit and copying the data; unknown descriptors leave
the record untouched (they are skipped using their declared length). -/
def applyIMUField (r : IMUData) (d : Nat) (data : List Nat) : IMUData :=
  if d = kFieldAccelData then
    { r with fields := r.fields ||| IMUData.Accelerometer, accel := data }
  else if d = kFieldGyroData then
    { r with fields := r.fields ||| IMUData.Gyroscope, gyro := data }
  else if d = kFieldMagData then
    { r with fields := r.fields ||| IMUData.Magnetometer, mag := data }
  else if d = kFieldPressureData then
    { r with fields := r.fields ||| IMUData.Barometer, pressure := data }
  else if d = kFieldImuGpsTimestamp then
    { r with
      fields := r.fields ||| IMUData.GpsTime
      gpsTow := data.take 8
      gpsWeek := (data.drop 8).take 2
      gpsTimeStatus := data.drop 10 }
  else r

/-- The presence bit an IMU sub-field descriptor contributes; 0 when the
descriptor is unrecognized. -/
def imuFieldMask (d : Nat) : Nat :=
  if d = kFieldAccelData then IMUData.Accelerometer
  else if d = kFieldGyroData then IMUData.Gyroscope
  else if d = kFieldMagData then IMUData.Magnetometer
  else if d = kFieldPressureData then IMUData.Barometer
  else if d = kFieldImuGpsTimestamp then IMUData.GpsTime
  else 0

/-- Modelled from the spec: dispatch of one filter sub-field into the
record, as for the IMU record; the trailing two bytes of each value field
are its validity status. -/
def applyFilterField (r : FilterData) (d : Nat) (data : List Nat) : FilterData :=
  if d = kFieldQuaternionData then
    { r with
      fields := r.fields ||| FilterData.Quaternion
      quaternion := data.take 16
      quaternionStatus := data.drop 16 }
  else if d = kFieldBiasData then
    { r with
      fields := r.fields ||| FilterData.Bias
      bias := data.take 12
      biasStatus := data.drop 12 }
  else if d = kFieldAngleUncertaintyData then
    { r with
      fields := r.fields ||| FilterData.AngleUnertainty
      angleUncertainty := data.take 12
      angleUncertaintyStatus := data.drop 12 }
  else if d = kFieldBiasUncertaintyData then
    { r with
      fields := r.fields ||| FilterData.BiasUncertainty
      biasUncertainty := data.take 12
      biasUncertaintyStatus := data.drop 12 }
  else if d = kFieldFilterGpsTimestamp then
    { r with
      fields := r.fields ||| FilterData.GpsTime
      gpsTow := data.take 8
      gpsWeek := (data.drop 8).take 2
      gpsTimeStatus := data.drop 10 }
  else r

/-- The presence bit a filter sub-field descriptor contributes; 0 when the
descriptor is unrecognized. -/
def filterFieldMask (d : Nat) : Nat :=
  if d = kFieldQuaternionData then FilterData.Quaternion
  else if d = kFieldBiasData then FilterData.Bias
  else if d = kFieldAngleUncertaintyData then FilterData.AngleUnertainty
  else if d = kFieldBiasUncertaintyData then FilterData.BiasUncertainty
  else if d = kFieldFilterGpsTimestamp then FilterData.GpsTime
  else 0

/-- Modelled from the spec: decode an IMU-data payload by walking its
sub-fields and dispatching each into a freshly default-initialized record;
a malformed sub-field length makes the whole frame a decode error. -/
def decodeIMU (payload : List Nat) : Option IMUData :=
  (decodeFields payload.length payload).map
    (fun fs => fs.foldl (fun r q => applyIMUField r q.1 q.2) {})

/-- Modelled from the spec: decode a filter-data payload, as for IMU. -/
def decodeFilter (payload : List Nat) : Option FilterData :=
  (decodeFields payload.length payload).map
    (fun fs => fs.foldl (fun r q => applyFilterField r q.1 q.2) {})

/-- Modelled from the spec: the streaming-data descriptor values marking a
frame as IMU data or filter data; two distinct message families. -/
def kDataIMUDescriptor : Nat := 0x80

def kDataFilterDescriptor : Nat := 0x82

/-- Modelled from the spec: `Packet::isIMUData` (body absent from src),
true when the descriptor is the IMU-data family. -/
def Packet.isIMUData (p : Packet) : Bool :=
  p.descriptor == kDataIMUDescriptor

/-- Modelled from the spec: `Packet::isFilterData` (body absent from src),
true when the descriptor is the filter-data family. -/
def Packet.isFilterData (p : Packet) : Bool :=
  p.descriptor == kDataFilterDescriptor

/-- Modelled from the spec: the routing step of `Imu::processPacket`: a
validated frame is decoded as IMU data or filter data according to its
descriptor and handed to at most one of the two registered callbacks;
other descriptors are command replies and produce no streaming record. -/
def processPacket (p : Packet) : Option (IMUData ⊕ FilterData) :=
  if p.isIMUData then (decodeIMU p.payload).map Sum.inl
  else if p.isFilterData then (decodeFilter p.payload).map Sum.inr
  else none

/-- Modelled from the spec: a frame carries its function code as the first
byte of its payload; an acknowledgement echoes the function code of the
command it answers and carries the status byte after it. -/
def Packet.functionCode (p : Packet) : Nat :=
  p.payload.getD 0 0

/-- Modelled from the spec: `Packet::ackErrorCodeFor` (body absent from
src, spec operation ack_code): the status byte when this frame is a valid
acknowledgement whose descriptor family matches the command frame and
whose payload first byte echoes the command function code; none for every
other frame/command pair. -/
def Packet.ackErrorCodeFor (p command : Packet) : Option Nat :=
  if p.descriptor = command.descriptor ∧ 2 ≤ p.payload.length ∧
      p.payload.getD 0 0 = command.functionCode
  then some (p.payload.getD 1 0) else none

/-- The ACK status value the device uses for success. -/
def kAckSuccess : Nat := 0

/-- Outcome of waiting for the acknowledgement of a command. -/
inductive CmdResult where
  | success : CmdResult
  | cmdError : Nat → Nat → CmdResult
  | timeout : CmdResult
deriving DecidableEq

/-- Modelled from the spec: `Imu::receiveResponse` (body absent from src):
scan the frames the demultiplexer produced before the timeout, in arrival
order, for the first one acknowledging the command; the success sentinel
yields success, any other status a command error carrying that status and
the command descriptor; if no frame matched before the stream of replies
ran out, the wait timed out. -/
def receiveResponse (command : Packet) : List Packet → CmdResult
  | [] => CmdResult.timeout
  | f :: rest =>
    match f.ackErrorCodeFor command with
    | some c =>
      if c = kAckSuccess then CmdResult.success
      else CmdResult.cmdError c command.descriptor
    | none => receiveResponse command rest

/-- One observable transport action of the driver. -/
inductive IoOp where
  | setBaud : Nat → IoOp
  | writeBytes : List Nat → IoOp
  | readPoll : IoOp
deriving DecidableEq

/-- Configuration and session errors surfaced to the caller. -/
inductive ImuError where
  | invalidBaudRate : ImuError
  | invalidSource : ImuError
  | deviceUnreachable : ImuError
deriving DecidableEq

/-- The supported baud rates listed in the header documentation of
`Imu::selectBaudRate`. -/
def kBaudRates : List Nat := [9600, 19200, 115200, 230400, 460800, 921600]

/-- Modelled from the spec: the lightweight probe command (ping). -/
def pingPacket : Packet := ⟨0x01, [0x01]⟩

/-- Big-endian 32-bit byte image of a number. -/
def toBytes32 (x : Nat) : List Nat :=
  [x / 2 ^ 24 % 256, x / 2 ^ 16 % 256, x / 2 ^ 8 % 256, x % 256]

/-- Modelled from the spec: the UART baud-change command frame. -/
def baudCommand (baud : Nat) : Packet :=
  ⟨0x0C, 0x40 :: toBytes32 baud⟩

/-- Transport actions of one probe attempt at one candidate rate. -/
def probeOps (r : Nat) : List IoOp :=
  [IoOp.setBaud r, IoOp.writeBytes pingPacket.encode, IoOp.readPoll]

/-- Modelled from the spec: `Imu::selectBaudRate` (body absent from src).
The requested rate is validated against the supported set before any
transport traffic; an unsupported rate is a configuration error with no
transport action performed. Otherwise every candidate rate is probed with
a ping until one answers (`probe` abstracts whether the device replies at
a rate); the first answering rate receives the baud-change command, then
the transport switches to the target rate and confirms with another ping.
The result pairs the transport actions performed with the error, if any. -/
def selectBaudRate (probe : Nat → Bool) (baud : Nat) :
    List IoOp × Option ImuError :=
  if baud ∈ kBaudRates then
    match kBaudRates.find? probe with
    | none => ((kBaudRates.map probeOps).flatten, some ImuError.deviceUnreachable)
    | some r =>
      (((kBaudRates.takeWhile (fun x => !probe x)).map probeOps).flatten ++
        probeOps r ++
        (if r = baud then []
         else [IoOp.writeBytes (baudCommand baud).encode, IoOp.setBaud baud] ++
           probeOps baud),
       none)
  else ([], some ImuError.invalidBaudRate)

/-- The source bits `Imu::setIMUDataRate` accepts, per its header
documentation: Accelerometer, Gyroscope, Magnetometer and Barometer. -/
def kIMUSourceMask : Nat :=
  IMUData.Accelerometer ||| IMUData.Gyroscope |||
    IMUData.Magnetometer ||| IMUData.Barometer

/-- The source bits `Imu::setFilterDataRate` accepts, per its header
documentation: Quaternion, GyroBias, AngleUncertainty, BiasUncertainty. -/
def kFilterSourceMask : Nat :=
  FilterData.Quaternion ||| FilterData.Bias |||
    FilterData.AngleUnertainty ||| FilterData.BiasUncertainty

/-- Modelled from the spec: the payload of the message-format command built
for the data-rate settings. -/
def ratePayload (descriptor decimation sources : Nat) : List Nat :=
  [descriptor, decimation / 256, decimation % 256, sources]

/-- Modelled from the spec: `Imu::setIMUDataRate` (body absent from src):
a sources bitmask holding any bit outside the allowed set is rejected as
an invalid argument before any transport traffic; otherwise the rate
command is written and its acknowledgement read. -/
def setIMUDataRate (decimation sources : Nat) : List IoOp × Option ImuError :=
  if sources &&& kIMUSourceMask = sources then
    ([IoOp.writeBytes (Packet.encode ⟨0x0C, ratePayload 0x08 decimation sources⟩),
      IoOp.readPoll], none)
  else ([], some ImuError.invalidSource)

/-- Modelled from the spec: `Imu::setFilterDataRate` (body absent from
src), validated as for the IMU rate command. -/
def setFilterDataRate (decimation sources : Nat) : List IoOp × Option ImuError :=
  if sources &&& kFilterSourceMask = sources then
    ([IoOp.writeBytes (Packet.encode ⟨0x0C, ratePayload 0x0A decimation sources⟩),
      IoOp.readPoll], none)
  else ([], some ImuError.invalidSource)

theorem encode_length (p : Packet) : p.encode.length = p.payload.length + 6 := by
  simp [Packet.encode]

theorem encode_getD_zero (p : Packet) : p.encode.getD 0 0 = kSyncMSB := rfl

theorem encode_getD_one (p : Packet) : p.encode.getD 1 0 = kSyncLSB := rfl

theorem encode_getD_two (p : Packet) : p.encode.getD 2 0 = p.descriptor % 256 := rfl

theorem encode_getD_three (p : Packet) : p.encode.getD 3 0 = p.payload.length % 256 := rfl

theorem encode_take_body (p : Packet) :
    p.encode.take (p.payload.length + 4) =
      kSyncMSB :: kSyncLSB :: p.descriptor % 256 :: p.payload.length % 256 :: p.payload := by
  simp only [Packet.encode]
  rw [List.take_append_of_le_length (by simp)]
  simp

theorem encode_drop_body (p : Packet) :
    p.encode.drop (p.payload.length + 4) =
      [(calcChecksum (kSyncMSB :: kSyncLSB :: p.descriptor % 256 ::
          p.payload.length % 256 :: p.payload)).1,
       (calcChecksum (kSyncMSB :: kSyncLSB :: p.descriptor % 256 ::
          p.payload.length % 256 :: p.payload)).2] := by
  simp only [Packet.encode]
  rw [show p.payload.length + 4 =
      (kSyncMSB :: kSyncLSB :: p.descriptor % 256 :: p.payload.length % 256 :: p.payload).length
      by simp]
  rw [List.drop_left]

theorem encode_eq (p : Packet) :
    p.encode =
      (kSyncMSB :: kSyncLSB :: p.descriptor % 256 :: p.payload.length % 256 :: p.payload) ++
        [(calcChecksum (kSyncMSB :: kSyncLSB :: p.descriptor % 256 ::
            p.payload.length % 256 :: p.payload)).1,
         (calcChecksum (kSyncMSB :: kSyncLSB :: p.descriptor % 256 ::
            p.payload.length % 256 :: p.payload)).2] := rfl

theorem checksumOk_encode (p : Packet) : checksumOk p.encode := by
  unfold checksumOk
  rw [encode_length]
  have h4 : p.payload.length + 6 - 2 = p.payload.length + 4 := by omega
  have h5 : p.payload.length + 6 - 1 = p.payload.length + 5 := by omega
  rw [h4, h5, encode_take_body]
  have h1 : p.encode.getD (p.payload.length + 4) 0 =
      (calcChecksum (kSyncMSB :: kSyncLSB :: p.descriptor % 256 ::
        p.payload.length % 256 :: p.payload)).1 := by
    rw [encode_eq, List.getD_append_right _ _ _ _ (by simp)]
    simp
  have h2 : p.encode.getD (p.payload.length + 5) 0 =
      (calcChecksum (kSyncMSB :: kSyncLSB :: p.descriptor % 256 ::
        p.payload.length % 256 :: p.payload)).2 := by
    rw [encode_eq, List.getD_append_right _ _ _ _ (by simp)]
    simp
  rw [h1, h2]

theorem encode_drop_four (p : Packet) :
    p.encode.drop 4 =
      p.payload ++
        [(calcChecksum (kSyncMSB :: kSyncLSB :: p.descriptor % 256 ::
            p.payload.length % 256 :: p.payload)).1,
         (calcChecksum (kSyncMSB :: kSyncLSB :: p.descriptor % 256 ::
            p.payload.length % 256 :: p.payload)).2] := rfl

/-- Claim C3: for every descriptor and payload of at most 255 bytes,
encoding the frame and then verifying the resulting byte sequence succeeds
and decodes back to the original descriptor and payload. -/
theorem encode_verify_roundtrip (d : Nat) (pl : List Nat) (hd : d < 256)
    (hl : pl.length ≤ 255) (hb : ∀ b ∈ pl, b < 256) :
    Packet.verify (Packet.encode ⟨d, pl⟩) = some ⟨d, pl⟩ := by
  have hlen : (Packet.encode ⟨d, pl⟩).length = pl.length + 6 := encode_length _
  have h3 : (Packet.encode ⟨d, pl⟩).getD 3 0 = pl.length := by
    rw [encode_getD_three]
    show pl.length % 256 = pl.length
    exact Nat.mod_eq_of_lt (by omega)
  have hcond : 6 ≤ (Packet.encode ⟨d, pl⟩).length ∧
      (Packet.encode ⟨d, pl⟩).getD 0 0 = kSyncMSB ∧
      (Packet.encode ⟨d, pl⟩).getD 1 0 = kSyncLSB ∧
      (Packet.encode ⟨d, pl⟩).length = 6 + (Packet.encode ⟨d, pl⟩).getD 3 0 ∧
      checksumOk (Packet.encode ⟨d, pl⟩) := by
    refine ⟨by omega, encode_getD_zero _, encode_getD_one _, by rw [hlen, h3]; omega,
      checksumOk_encode _⟩
  simp only [Packet.verify]
  rw [if_pos hcond]
  have h2 : (Packet.encode ⟨d, pl⟩).getD 2 0 = d := by
    rw [encode_getD_two]
    exact Nat.mod_eq_of_lt hd
  rw [h2, h3, encode_drop_four]
  rw [List.take_left]

/-- Witness for claim C3 at descriptor 12 and payload [1, 2, 3]. -/
theorem encode_verify_roundtrip_witness :
    12 < 256 ∧ ([1, 2, 3] : List Nat).length ≤ 255 ∧
      Packet.verify (Packet.encode ⟨12, [1, 2, 3]⟩) = some ⟨12, [1, 2, 3]⟩ :=
  ⟨by decide, by decide, encode_verify_roundtrip 12 [1, 2, 3] (by decide) (by decide) (by decide)⟩

theorem classify_advance_lt {buf : List Nat} {i : Nat}
    (h : classify buf i = Step.advance) : i + 1 < buf.length := by
  unfold classify at h
  by_cases h1 : i + 1 < buf.length
  · exact h1
  · rw [if_neg h1] at h
    exact absurd h (by simp)

theorem classify_yield_bounds {buf : List Nat} {i t : Nat}
    (h : classify buf i = Step.yieldFrame t) :
    t = 6 + buf.getD (i + 3) 0 ∧ i + t ≤ buf.length := by
  unfold classify at h
  by_cases h1 : i + 1 < buf.length
  · rw [if_pos h1] at h
    by_cases h2 : buf.getD i 0 = kSyncMSB ∧ buf.getD (i + 1) 0 = kSyncLSB
    · rw [if_pos h2] at h
      by_cases h3 : i + 3 < buf.length
      · rw [if_pos h3] at h
        by_cases h4 : i + (6 + buf.getD (i + 3) 0) ≤ buf.length
        · rw [if_pos h4] at h
          by_cases h5 : checksumOk ((buf.drop i).take (6 + buf.getD (i + 3) 0))
          · rw [if_pos h5] at h
            exact ⟨by injection h with h; omega, by injection h with h; omega⟩
          · rw [if_neg h5] at h
            exact absurd h (by simp)
        · rw [if_neg h4] at h
          exact absurd h (by simp)
      · rw [if_neg h3] at h
        exact absurd h (by simp)
    · rw [if_neg h2] at h
      exact absurd h (by simp)
  · rw [if_neg h1] at h
    exact absurd h (by simp)

theorem classify_block_of_short {buf : List Nat} {i : Nat}
    (h : ¬ i + 1 < buf.length) : classify buf i = Step.block := by
  unfold classify
  rw [if_neg h]

theorem classify_append_of_ne_block {buf : List Nat} {i : Nat} (e : List Nat)
    (h : classify buf i ≠ Step.block) : classify (buf ++ e) i = classify buf i := by
  unfold classify at h ⊢
  by_cases h1 : i + 1 < buf.length
  · have h1e : i + 1 < (buf ++ e).length := by
      simp only [List.length_append]
      omega
    have g0 : (buf ++ e).getD i 0 = buf.getD i 0 := List.getD_append _ _ _ _ (by omega)
    have g1 : (buf ++ e).getD (i + 1) 0 = buf.getD (i + 1) 0 :=
      List.getD_append _ _ _ _ (by omega)
    rw [if_pos h1] at h
    rw [if_pos h1e, if_pos h1, g0, g1]
    by_cases h2 : buf.getD i 0 = kSyncMSB ∧ buf.getD (i + 1) 0 = kSyncLSB
    · rw [if_pos h2] at h ⊢
      rw [if_pos h2]
      by_cases h3 : i + 3 < buf.length
      · have h3e : i + 3 < (buf ++ e).length := by
          simp only [List.length_append]
          omega
        have g3 : (buf ++ e).getD (i + 3) 0 = buf.getD (i + 3) 0 :=
          List.getD_append _ _ _ _ (by omega)
        rw [if_pos h3] at h
        rw [if_pos h3e, if_pos h3, g3]
        by_cases h4 : i + (6 + buf.getD (i + 3) 0) ≤ buf.length
        · have h4e : i + (6 + buf.getD (i + 3) 0) ≤ (buf ++ e).length := by
            simp only [List.length_append]
            omega
          have gw : ((buf ++ e).drop i).take (6 + buf.getD (i + 3) 0) =
              (buf.drop i).take (6 + buf.getD (i + 3) 0) := by
            rw [List.drop_append_of_le_length (by omega)]
            rw [List.take_append_of_le_length (by simp only [List.length_drop]; omega)]
          rw [if_pos h4e, if_pos h4, gw]
        · rw [if_neg h4] at h
          exact absurd rfl h
      · rw [if_neg h3] at h
        exact absurd rfl h
    · rw [if_neg h2] at h ⊢
      rw [if_neg h2]
  · rw [if_neg h1] at h
    exact absurd rfl h

theorem classify_shift (l m : List Nat) (j : Nat) :
    classify (l ++ m) (l.length + j) = classify m j := by
  have g : ∀ k, (l ++ m).getD (l.length + j + k) 0 = m.getD (j + k) 0 := by
    intro k
    rw [show l.length + j + k = l.length + (j + k) by omega]
    rw [List.getD_append_right _ _ _ _ (by omega)]
    congr 1
    omega
  have g0 : (l ++ m).getD (l.length + j) 0 = m.getD j 0 := by
    have h := g 0
    simpa using h
  have g1 := g 1
  have g3 := g 3
  have hdrop : (l ++ m).drop (l.length + j) = m.drop j := List.drop_append j
  have clt : ∀ x : Nat, (l.length + j + x < (l ++ m).length) ↔ (j + x < m.length) := by
    intro x
    simp only [List.length_append]
    omega
  have cle : ∀ x : Nat, (l.length + j + x ≤ (l ++ m).length) ↔ (j + x ≤ m.length) := by
    intro x
    simp only [List.length_append]
    omega
  unfold classify
  simp only [g0, g1, g3, hdrop, clt, cle]

theorem packetAt_shift (l m : List Nat) (j : Nat) :
    packetAt (l ++ m) (l.length + j) = packetAt m j := by
  unfold packetAt
  have g2 : (l ++ m).getD (l.length + j + 2) 0 = m.getD (j + 2) 0 := by
    rw [show l.length + j + 2 = l.length + (j + 2) by omega]
    rw [List.getD_append_right _ _ _ _ (by omega)]
    congr 1
    omega
  have g3 : (l ++ m).getD (l.length + j + 3) 0 = m.getD (j + 3) 0 := by
    rw [show l.length + j + 3 = l.length + (j + 3) by omega]
    rw [List.getD_append_right _ _ _ _ (by omega)]
    congr 1
    omega
  have hdrop : (l ++ m).drop (l.length + j + 4) = m.drop (j + 4) := by
    rw [show l.length + j + 4 = l.length + (j + 4) by omega]
    exact List.drop_append (j + 4)
  rw [g2, g3, hdrop]

theorem packetAt_append {buf : List Nat} {i : Nat} (e : List Nat)
    (h : i + (6 + buf.getD (i + 3) 0) ≤ buf.length) :
    packetAt (buf ++ e) i = packetAt buf i := by
  unfold packetAt
  have g2 : (buf ++ e).getD (i + 2) 0 = buf.getD (i + 2) 0 :=
    List.getD_append _ _ _ _ (by omega)
  have g3 : (buf ++ e).getD (i + 3) 0 = buf.getD (i + 3) 0 :=
    List.getD_append _ _ _ _ (by omega)
  have hdrop : (buf ++ e).drop (i + 4) = buf.drop (i + 4) ++ e :=
    List.drop_append_of_le_length (by omega)
  rw [g2, g3, hdrop]
  rw [List.take_append_of_le_length (by simp only [List.length_drop]; omega)]

theorem drainAux_shift (g : Nat) : ∀ (l m : List Nat) (j : Nat),
    drainAux g (l ++ m) (l.length + j) = drainAux g m j := by
  induction g with
  | zero =>
    intro l m j
    simp only [drainAux]
    rw [List.drop_append]
  | succ g ih =>
    intro l m j
    simp only [drainAux]
    rw [classify_shift]
    cases hc : classify m j with
    | block =>
      simp only
      rw [List.drop_append]
    | advance =>
      simp only
      have h := ih l m (j + 1)
      rw [show l.length + j + 1 = l.length + (j + 1) by omega]
      exact h
    | yieldFrame t =>
      simp only
      have hp : packetAt (l ++ m) (l.length + j) = packetAt m j := packetAt_shift l m j
      have hd : (l ++ m).drop (l.length + j + t) = m.drop (j + t) := by
        rw [show l.length + j + t = l.length + (j + t) by omega]
        exact List.drop_append (j + t)
      rw [hp, hd]

theorem drainAux_fuel : ∀ g₁ : Nat, ∀ g₂ buf : _, ∀ i : Nat,
    2 * buf.length + 1 ≤ g₁ + i → 2 * buf.length + 1 ≤ g₂ + i →
    drainAux g₁ buf i = drainAux g₂ buf i := by
  intro g₁
  induction g₁ with
  | zero =>
    intro g₂ buf i h1 h2
    have hb : classify buf i = Step.block := classify_block_of_short (by omega)
    cases g₂ with
    | zero => rfl
    | succ g₂ =>
      simp only [drainAux, hb]
  | succ g₁ ih =>
    intro g₂ buf i h1 h2
    cases g₂ with
    | zero =>
      have hb : classify buf i = Step.block := classify_block_of_short (by omega)
      simp only [drainAux, hb]
    | succ g₂ =>
      simp only [drainAux]
      cases hc : classify buf i with
      | block => rfl
      | advance =>
        exact ih g₂ buf (i + 1) (by omega) (by omega)
      | yieldFrame t =>
        obtain ⟨ht, hle⟩ := classify_yield_bounds hc
        have h6 : 6 ≤ t := by omega
        have hrec := ih g₂ (buf.drop (i + t)) 0
          (by simp only [List.length_drop]; omega)
          (by simp only [List.length_drop]; omega)
        simp only
        rw [hrec]

theorem drainAux_resid : ∀ g buf : _, ∀ i : Nat,
    (drainAux g buf i).2.length ≤ buf.length - i := by
  intro g
  induction g with
  | zero =>
    intro buf i
    simp [drainAux]
  | succ g ih =>
    intro buf i
    simp only [drainAux]
    cases hc : classify buf i with
    | block => simp
    | advance =>
      have h := ih buf (i + 1)
      simp only
      omega
    | yieldFrame t =>
      have h := ih (buf.drop (i + t)) 0
      simp only [List.length_drop] at h
      simp only
      omega

theorem drainAux_append : ∀ g buf : _, ∀ i : Nat, ∀ ext : List Nat,
    i ≤ buf.length → 2 * (buf.length + ext.length) + 1 ≤ g + i →
    drainAux g (buf ++ ext) i =
      ((drainAux g buf i).1 ++ (drainAux g ((drainAux g buf i).2 ++ ext) 0).1,
       (drainAux g ((drainAux g buf i).2 ++ ext) 0).2) := by
  intro g
  induction g with
  | zero =>
    intro buf i ext hi hg
    omega
  | succ g ih =>
    intro buf i ext hi hg
    cases hc : classify buf i with
    | block =>
      have hshift : drainAux (g + 1) (buf ++ ext) i =
          drainAux (g + 1) (buf.drop i ++ ext) 0 := by
        have h := drainAux_shift (g + 1) (buf.take i) (buf.drop i ++ ext) 0
        rw [← List.append_assoc, List.take_append_drop] at h
        rw [show (List.take i buf).length + 0 = i by rw [List.length_take]; omega] at h
        exact h
      have hbuf : drainAux (g + 1) buf i = ([], buf.drop i) := by
        simp only [drainAux, hc]
      rw [hshift, hbuf]
      simp
    | advance =>
      have hlt := classify_advance_lt hc
      have hce : classify (buf ++ ext) i = Step.advance := by
        rw [classify_append_of_ne_block ext (by rw [hc]; simp)]
        exact hc
      have hbuf : drainAux (g + 1) buf i = drainAux g buf (i + 1) := by
        simp only [drainAux, hc]
      have hlhs : drainAux (g + 1) (buf ++ ext) i = drainAux g (buf ++ ext) (i + 1) := by
        simp only [drainAux, hce]
      have hres := drainAux_resid g buf (i + 1)
      have hfuel := drainAux_fuel (g + 1) g ((drainAux g buf (i + 1)).2 ++ ext) 0
        (by simp only [List.length_append]; omega)
        (by simp only [List.length_append]; omega)
      rw [hlhs, hbuf, hfuel]
      exact ih buf (i + 1) ext (by omega) (by omega)
    | yieldFrame t =>
      obtain ⟨ht, hle⟩ := classify_yield_bounds hc
      have h6 : 6 ≤ t := by omega
      have hce : classify (buf ++ ext) i = Step.yieldFrame t := by
        rw [classify_append_of_ne_block ext (by rw [hc]; simp)]
        exact hc
      have hpk : packetAt (buf ++ ext) i = packetAt buf i := by
        apply packetAt_append
        omega
      have hdr : (buf ++ ext).drop (i + t) = buf.drop (i + t) ++ ext :=
        List.drop_append_of_le_length (by omega)
      have hres := drainAux_resid g (buf.drop (i + t)) 0
      simp only [List.length_drop] at hres
      have hih := ih (buf.drop (i + t)) 0 ext
        (by omega)
        (by simp only [List.length_drop]; omega)
      have hfuel := drainAux_fuel (g + 1) g
        ((drainAux g (buf.drop (i + t)) 0).2 ++ ext) 0
        (by simp only [List.length_append]; omega)
        (by simp only [List.length_append]; omega)
      have hlhs : drainAux (g + 1) (buf ++ ext) i =
          (packetAt (buf ++ ext) i :: (drainAux g ((buf ++ ext).drop (i + t)) 0).1,
           (drainAux g ((buf ++ ext).drop (i + t)) 0).2) := by
        simp only [drainAux, hce]
      have hbuf : drainAux (g + 1) buf i =
          (packetAt buf i :: (drainAux g (buf.drop (i + t)) 0).1,
           (drainAux g (buf.drop (i + t)) 0).2) := by
        simp only [drainAux, hc]
      rw [hlhs, hpk, hdr, hih, hbuf]
      simp only
      rw [hfuel]
      simp

theorem drain_append (buf ext : List Nat) :
    drain (buf ++ ext) =
      ((drain buf).1 ++ (drain ((drain buf).2 ++ ext)).1,
       (drain ((drain buf).2 ++ ext)).2) := by
  have hres : (drainAux (2 * buf.length + 1) buf 0).2.length ≤ buf.length := by
    have h := drainAux_resid (2 * buf.length + 1) buf 0
    omega
  have h1 : drainAux (2 * (buf ++ ext).length + 1) buf 0 =
      drainAux (2 * buf.length + 1) buf 0 :=
    drainAux_fuel _ _ _ _ (by simp only [List.length_append]; omega) (by omega)
  have h2 : drainAux (2 * (buf ++ ext).length + 1)
        ((drainAux (2 * buf.length + 1) buf 0).2 ++ ext) 0 =
      drainAux (2 * ((drainAux (2 * buf.length + 1) buf 0).2 ++ ext).length + 1)
        ((drainAux (2 * buf.length + 1) buf 0).2 ++ ext) 0 :=
    drainAux_fuel _ _ _ _ (by simp only [List.length_append]; omega) (by omega)
  have hmain := drainAux_append (2 * (buf ++ ext).length + 1) buf 0 ext
    (by omega) (by simp only [List.length_append]; omega)
  simp only [drain]
  rw [hmain, h1, h2]

theorem drainAux_block_resid : ∀ g buf : _, ∀ i : Nat,
    2 * buf.length + 1 ≤ g + i →
    classify ((drainAux g buf i).2) 0 = Step.block := by
  intro g
  induction g with
  | zero =>
    intro buf i h
    apply classify_block_of_short
    simp only [drainAux, List.length_drop]
    omega
  | succ g ih =>
    intro buf i h
    simp only [drainAux]
    cases hc : classify buf i with
    | block =>
      simp only
      by_cases hi : i ≤ buf.length
      · have h := classify_shift (buf.take i) (buf.drop i) 0
        rw [List.take_append_drop] at h
        rw [show (List.take i buf).length + 0 = i by rw [List.length_take]; omega] at h
        rw [← h]
        exact hc
      · apply classify_block_of_short
        simp only [List.length_drop]
        omega
    | advance =>
      exact ih buf (i + 1) (by omega)
    | yieldFrame t =>
      obtain ⟨ht, hle⟩ := classify_yield_bounds hc
      exact ih (buf.drop (i + t)) 0 (by simp only [List.length_drop]; omega)

theorem drain_resid_block (buf : List Nat) : classify ((drain buf).2) 0 = Step.block :=
  drainAux_block_resid (2 * buf.length + 1) buf 0 (by omega)

theorem drain_of_block {r : List Nat} (h : classify r 0 = Step.block) :
    drain r = ([], r) := by
  unfold drain
  simp only [drainAux, h]
  simp

theorem runStream_eq : ∀ (cs : List (List Nat)) (r : List Nat),
    classify r 0 = Step.block → runStream r cs = drain (r ++ cs.flatten) := by
  intro cs
  induction cs with
  | nil =>
    intro r h
    simp only [runStream, List.flatten_nil, List.append_nil]
    rw [drain_of_block h]
  | cons c cs ih =>
    intro r h
    have hstep := ih (drain (r ++ c)).2 (drain_resid_block (r ++ c))
    simp only [runStream, handleRead]
    rw [hstep]
    have : r ++ (c :: cs).flatten = (r ++ c) ++ cs.flatten := by
      simp [List.flatten_cons]
    rw [this, drain_append (r ++ c) cs.flatten]

/-- Claim C1: feeding a byte stream to the demultiplexer split at arbitrary
chunk boundaries, including one byte at a time, yields the same decoded
frames in the same order, and the same retained residual, as feeding the
entire stream in a single call. -/
theorem fragmentation_invariance (chunks : List (List Nat)) :
    runStream [] chunks = handleRead [] chunks.flatten := by
  have h : classify ([] : List Nat) 0 = Step.block := by
    apply classify_block_of_short
    simp
  exact runStream_eq chunks [] h

theorem classify_encode (p : Packet) (rest : List Nat) (hl : p.payload.length ≤ 255) :
    classify (p.encode ++ rest) 0 = Step.yieldFrame (6 + p.payload.length) := by
  have hel : p.encode.length = p.payload.length + 6 := encode_length p
  have g0 : (p.encode ++ rest).getD 0 0 = kSyncMSB := by
    rw [List.getD_append _ _ _ _ (by omega)]
    exact encode_getD_zero p
  have g1 : (p.encode ++ rest).getD 1 0 = kSyncLSB := by
    rw [List.getD_append _ _ _ _ (by omega)]
    exact encode_getD_one p
  have g3 : (p.encode ++ rest).getD 3 0 = p.payload.length := by
    rw [List.getD_append _ _ _ _ (by omega), encode_getD_three]
    exact Nat.mod_eq_of_lt (by omega)
  have hw : ((p.encode ++ rest).drop 0).take (6 + p.payload.length) = p.encode := by
    rw [List.drop_zero, List.take_append_of_le_length (by omega)]
    exact List.take_of_length_le (by omega)
  unfold classify
  rw [if_pos (by simp only [List.length_append]; omega)]
  rw [g0, g1, if_pos ⟨rfl, rfl⟩]
  rw [if_pos (by simp only [List.length_append]; omega)]
  rw [g3]
  rw [if_pos (by simp only [List.length_append]; omega)]
  rw [hw, if_pos (checksumOk_encode p)]

theorem packetAt_encode (p : Packet) (rest : List Nat)
    (hd : p.descriptor < 256) (hl : p.payload.length ≤ 255) :
    packetAt (p.encode ++ rest) 0 = p := by
  have hel : p.encode.length = p.payload.length + 6 := encode_length p
  have g2 : (p.encode ++ rest).getD (0 + 2) 0 = p.descriptor := by
    rw [List.getD_append _ _ _ _ (by omega), encode_getD_two]
    exact Nat.mod_eq_of_lt hd
  have g3 : (p.encode ++ rest).getD (0 + 3) 0 = p.payload.length := by
    rw [List.getD_append _ _ _ _ (by omega), encode_getD_three]
    exact Nat.mod_eq_of_lt (by omega)
  have hdr : (p.encode ++ rest).drop (0 + 4) = (p.encode.drop 4) ++ rest :=
    List.drop_append_of_le_length (by omega)
  unfold packetAt
  rw [g2, g3, hdr, encode_drop_four]
  rw [List.append_assoc, List.cons_append]
  rw [List.take_append_of_le_length (by omega)]
  rw [List.take_length]

theorem drainAux_nil (g : Nat) : drainAux g [] 0 = ([], []) := by
  cases g with
  | zero => rfl
  | succ g =>
    have h : classify ([] : List Nat) 0 = Step.block := by
      apply classify_block_of_short
      simp
    simp only [drainAux, h]
    rfl

theorem drainAux_advance_walk : ∀ k g : Nat, ∀ buf : List Nat, ∀ i : Nat,
    (∀ j, i ≤ j → j < i + k → classify buf j = Step.advance) →
    drainAux (k + g) buf i = drainAux g buf (i + k) := by
  intro k
  induction k with
  | zero =>
    intro g buf i h
    rw [Nat.zero_add, Nat.add_zero]
  | succ k ih =>
    intro g buf i h
    have hadv : classify buf i = Step.advance := h i (le_refl i) (by omega)
    rw [show k + 1 + g = (k + g) + 1 by omega]
    simp only [drainAux, hadv]
    have hr := ih g buf (i + 1) (fun j hj1 hj2 => h j (by omega) (by omega))
    rw [hr, show i + 1 + k = i + (k + 1) by omega]

/-- The encoding of a single frame drains to exactly that frame with empty
residual. -/
theorem drain_encode (p : Packet) (hd : p.descriptor < 256)
    (hl : p.payload.length ≤ 255) : drain p.encode = ([p], []) := by
  have hel : p.encode.length = p.payload.length + 6 := encode_length p
  have hc : classify p.encode 0 = Step.yieldFrame (6 + p.payload.length) := by
    have h := classify_encode p [] hl
    rwa [List.append_nil] at h
  have hpk : packetAt p.encode 0 = p := by
    have h := packetAt_encode p [] hd hl
    rwa [List.append_nil] at h
  have hdr : p.encode.drop (0 + (6 + p.payload.length)) = [] :=
    List.drop_eq_nil_of_le (by omega)
  obtain ⟨g, hgeq⟩ : ∃ g, 2 * p.encode.length + 1 = g + 1 :=
    ⟨2 * p.encode.length, rfl⟩
  unfold drain
  rw [hgeq]
  simp only [drainAux, hc]
  rw [hpk, hdr, drainAux_nil]

/-- Claim C2 (amended): after a valid frame, noise that contains a
sync-marker-valued byte pair but in which every scan position is rejected
as a false sync (each candidate is complete and fails the checksum rather
than forming a valid frame or an incomplete candidate reaching the end of
the buffered stream), followed by another valid frame, drains to exactly
the two valid frames and no frame derived from the noise; the false sync
costs exactly one byte of scan progress and the rest of the buffer is
kept. -/
theorem resynchronization (p₁ p₂ : Packet) (noise : List Nat)
    (h1d : p₁.descriptor < 256) (h1l : p₁.payload.length ≤ 255)
    (h2d : p₂.descriptor < 256) (h2l : p₂.payload.length ≤ 255)
    (hsync : ∃ j, j + 1 < noise.length ∧ noise.getD j 0 = kSyncMSB ∧
      noise.getD (j + 1) 0 = kSyncLSB)
    (hadv : ∀ j, j < noise.length →
      classify (noise ++ p₂.encode) j = Step.advance) :
    drain (p₁.encode ++ (noise ++ p₂.encode)) = ([p₁, p₂], []) := by
  have hel1 : p₁.encode.length = p₁.payload.length + 6 := encode_length p₁
  have hel2 : p₂.encode.length = p₂.payload.length + 6 := encode_length p₂
  have hN : (p₁.encode ++ (noise ++ p₂.encode)).length =
      p₁.encode.length + (noise.length + p₂.encode.length) := by
    simp
  have hc1 : classify (p₁.encode ++ (noise ++ p₂.encode)) 0 =
      Step.yieldFrame (6 + p₁.payload.length) := classify_encode p₁ _ h1l
  have hpk1 : packetAt (p₁.encode ++ (noise ++ p₂.encode)) 0 = p₁ :=
    packetAt_encode p₁ _ h1d h1l
  have hdropR : (p₁.encode ++ (noise ++ p₂.encode)).drop (0 + (6 + p₁.payload.length)) =
      noise ++ p₂.encode := by
    rw [Nat.zero_add, show 6 + p₁.payload.length = p₁.encode.length by omega]
    exact List.drop_left _ _
  obtain ⟨G, hGeq, hGval⟩ : ∃ G,
      2 * (p₁.encode ++ (noise ++ p₂.encode)).length + 1 = G + 1 ∧
      G = 2 * (p₁.encode.length + (noise.length + p₂.encode.length)) :=
    ⟨2 * (p₁.encode ++ (noise ++ p₂.encode)).length, rfl, by simp⟩
  unfold drain
  rw [hGeq]
  simp only [drainAux, hc1]
  rw [hpk1, hdropR]
  have hwalk := drainAux_advance_walk noise.length (G - noise.length)
    (noise ++ p₂.encode) 0 (fun j hj1 hj2 => hadv j (by omega))
  rw [show noise.length + (G - noise.length) = G by omega] at hwalk
  rw [hwalk, Nat.zero_add]
  have hshift : drainAux (G - noise.length) (noise ++ p₂.encode) noise.length =
      drainAux (G - noise.length) p₂.encode 0 := by
    have h := drainAux_shift (G - noise.length) noise p₂.encode 0
    simpa using h
  rw [hshift]
  have hfuel : drainAux (G - noise.length) p₂.encode 0 =
      drainAux (2 * p₂.encode.length + 1) p₂.encode 0 :=
    drainAux_fuel _ _ _ _ (by omega) (by omega)
  rw [hfuel]
  have hfin : drainAux (2 * p₂.encode.length + 1) p₂.encode 0 = ([p₂], []) :=
    drain_encode p₂ h2d h2l
  rw [hfin]

/-- Counterexample to claim C2 as literally stated: take the noise between
the two valid frames to be itself the encoding of a third valid frame; it
contains a sync-marker-valued byte pair, yet the demultiplexer yields three
frames, not exactly the two surrounding valid frames. -/
theorem resynchronization_counterexample :
    ((Packet.encode ⟨1, []⟩).getD 0 0 = kSyncMSB ∧
      (Packet.encode ⟨1, []⟩).getD 1 0 = kSyncLSB) ∧
    (drain (Packet.encode ⟨2, []⟩ ++
        (Packet.encode ⟨1, []⟩ ++ Packet.encode ⟨3, []⟩))).1 =
      [⟨2, []⟩, ⟨1, []⟩, ⟨3, []⟩] ∧
    (drain (Packet.encode ⟨2, []⟩ ++
        (Packet.encode ⟨1, []⟩ ++ Packet.encode ⟨3, []⟩))).1 ≠
      [⟨2, []⟩, ⟨3, []⟩] := by
  decide

/-- Witness for amended claim C2: concrete frames around four noise bytes
that start with a sync-marker pair whose candidate frame fails the
checksum. -/
theorem resynchronization_witness :
    (∀ j, j < ([117, 101, 0, 0] : List Nat).length →
      classify (([117, 101, 0, 0] : List Nat) ++ Packet.encode ⟨3, [187]⟩) j =
        Step.advance) ∧
    drain (Packet.encode ⟨2, [170]⟩ ++
        (([117, 101, 0, 0] : List Nat) ++ Packet.encode ⟨3, [187]⟩)) =
      ([⟨2, [170]⟩, ⟨3, [187]⟩], []) :=
  ⟨by decide, resynchronization ⟨2, [170]⟩ ⟨3, [187]⟩ [117, 101, 0, 0]
    (by decide) (by decide) (by decide) (by decide)
    ⟨0, by decide, by decide, by decide⟩ (by decide)⟩

theorem decodeFields_nil (g : Nat) : decodeFields g [] = some [] := by
  cases g <;> rfl

theorem decodeFields_single (k x : Nat) : decodeFields (k + 1) [x] = none := rfl

theorem decodeFields_cons (k len d : Nat) (rest : List Nat) :
    decodeFields (k + 1) (len :: d :: rest) =
      if 2 ≤ len ∧ len - 2 ≤ rest.length then
        (decodeFields k (rest.drop (len - 2))).map
          (fun fs => (d, rest.take (len - 2)) :: fs)
      else none := rfl

theorem decodeFields_fuel : ∀ g₁ g₂ : Nat, ∀ p : List Nat,
    p.length ≤ g₁ → p.length ≤ g₂ → decodeFields g₁ p = decodeFields g₂ p := by
  intro g₁
  induction g₁ with
  | zero =>
    intro g₂ p h1 h2
    cases p with
    | nil => rw [decodeFields_nil, decodeFields_nil]
    | cons a as => simp at h1
  | succ g₁ ih =>
    intro g₂ p h1 h2
    cases p with
    | nil => rw [decodeFields_nil, decodeFields_nil]
    | cons a as =>
      cases g₂ with
      | zero => simp at h2
      | succ g₂ =>
        cases as with
        | nil => rfl
        | cons b bs =>
          rw [decodeFields_cons, decodeFields_cons]
          by_cases hcond : 2 ≤ a ∧ a - 2 ≤ bs.length
          · rw [if_pos hcond, if_pos hcond]
            rw [ih g₂ (bs.drop (a - 2))
              (by
                simp only [List.length_cons] at h1
                simp only [List.length_drop]
                omega)
              (by
                simp only [List.length_cons] at h2
                simp only [List.length_drop]
                omega)]
          · rw [if_neg hcond, if_neg hcond]

theorem decodeFields_field (k d : Nat) (data rest : List Nat) :
    decodeFields (k + 1) ((data.length + 2) :: d :: (data ++ rest)) =
      (decodeFields k rest).map (fun fs => (d, data) :: fs) := by
  rw [decodeFields_cons]
  rw [if_pos ⟨by omega, by simp only [List.length_append]; omega⟩]
  rw [Nat.add_sub_cancel]
  rw [List.drop_left, List.take_left]

theorem decodeFields_last (k d : Nat) (data : List Nat) :
    decodeFields (k + 1) ((data.length + 2) :: d :: data) = some [(d, data)] := by
  have h := decodeFields_field k d data []
  rw [List.append_nil] at h
  rw [h, decodeFields_nil]
  rfl

theorem applyIMUField_fields (r : IMUData) (d : Nat) (data : List Nat) :
    (applyIMUField r d data).fields = r.fields ||| imuFieldMask d := by
  unfold applyIMUField imuFieldMask
  split_ifs <;> simp

theorem applyFilterField_fields (r : FilterData) (d : Nat) (data : List Nat) :
    (applyFilterField r d data).fields = r.fields ||| filterFieldMask d := by
  unfold applyFilterField filterFieldMask
  split_ifs <;> simp

theorem applyIMUField_of_mask_zero {d : Nat} (h : imuFieldMask d = 0)
    (r : IMUData) (data : List Nat) : applyIMUField r d data = r := by
  unfold imuFieldMask at h
  unfold applyIMUField
  split_ifs at h ⊢ <;> first | rfl | exact absurd h (by decide)

theorem foldl_applyIMUField_fields : ∀ fs : List (Nat × List Nat), ∀ r : IMUData,
    (fs.foldl (fun r q => applyIMUField r q.1 q.2) r).fields =
      fs.foldl (fun a q => a ||| imuFieldMask q.1) r.fields := by
  intro fs
  induction fs with
  | nil =>
    intro r
    rfl
  | cons q fs ih =>
    intro r
    simp only [List.foldl_cons]
    rw [ih, applyIMUField_fields]

theorem foldl_applyFilterField_fields : ∀ fs : List (Nat × List Nat), ∀ r : FilterData,
    (fs.foldl (fun r q => applyFilterField r q.1 q.2) r).fields =
      fs.foldl (fun a q => a ||| filterFieldMask q.1) r.fields := by
  intro fs
  induction fs with
  | nil =>
    intro r
    rfl
  | cons q fs ih =>
    intro r
    simp only [List.foldl_cons]
    rw [ih, applyFilterField_fields]

/-- Claim C10: a freshly constructed IMUData or FilterData record has an
empty presence bitmask, and the presence bitmask any decode produces is
exactly the bitwise or of the mask bits of the sub-fields the decoder
actually consumed, so a bit is set only if the matching sub-field was
consumed from the payload. -/
theorem fields_zero_invariant :
    ({} : IMUData).fields = 0 ∧ ({} : FilterData).fields = 0 ∧
    (∀ payload : List Nat, (decodeIMU payload).map IMUData.fields =
      (decodeFields payload.length payload).map
        (fun fs => fs.foldl (fun a q => a ||| imuFieldMask q.1) 0)) ∧
    (∀ payload : List Nat, (decodeFilter payload).map FilterData.fields =
      (decodeFields payload.length payload).map
        (fun fs => fs.foldl (fun a q => a ||| filterFieldMask q.1) 0)) := by
  refine ⟨rfl, rfl, ?_, ?_⟩
  · intro payload
    unfold decodeIMU
    cases h : decodeFields payload.length payload with
    | none => rfl
    | some fs =>
      simp only [Option.map]
      rw [foldl_applyIMUField_fields]
  · intro payload
    unfold decodeFilter
    cases h : decodeFields payload.length payload with
    | none => rfl
    | some fs =>
      simp only [Option.map]
      rw [foldl_applyFilterField_fields]

theorem applyIMUField_gyro (r : IMUData) (data : List Nat) :
    applyIMUField r kFieldGyroData data =
      { r with fields := r.fields ||| IMUData.Gyroscope, gyro := data } := by
  unfold applyIMUField
  rw [if_neg (by decide), if_pos rfl]

theorem applyIMUField_gps (r : IMUData) (data : List Nat) :
    applyIMUField r kFieldImuGpsTimestamp data =
      { r with
        fields := r.fields ||| IMUData.GpsTime
        gpsTow := data.take 8
        gpsWeek := (data.drop 8).take 2
        gpsTimeStatus := data.drop 10 } := by
  unfold applyIMUField
  rw [if_neg (by decide), if_neg (by decide), if_neg (by decide),
    if_neg (by decide), if_pos rfl]

/-- Claim C7: an IMU-data payload holding exactly a Gyroscope sub-field
and a GpsTime sub-field decodes to a record whose presence bitmask has
exactly those two bits set, with the accelerometer, magnetometer and
barometer slots untouched at their default state. -/
theorem field_mask_fidelity (g t : List Nat) :
    decodeIMU ((g.length + 2) :: kFieldGyroData ::
        (g ++ ((t.length + 2) :: kFieldImuGpsTimestamp :: t))) =
      some { fields := IMUData.Gyroscope ||| IMUData.GpsTime
             gyro := g
             gpsTow := t.take 8
             gpsWeek := (t.drop 8).take 2
             gpsTimeStatus := t.drop 10 } := by
  unfold decodeIMU
  have hlen : ((g.length + 2) :: kFieldGyroData ::
      (g ++ ((t.length + 2) :: kFieldImuGpsTimestamp :: t))).length =
      (g.length + t.length + 3) + 1 := by
    simp only [List.length_cons, List.length_append]
    omega
  rw [hlen, decodeFields_field]
  rw [show g.length + t.length + 3 = (g.length + t.length + 2) + 1 by omega]
  rw [decodeFields_last]
  simp only [Option.map, List.foldl_cons, List.foldl_nil]
  rw [applyIMUField_gyro, applyIMUField_gps]
  simp

/-- Claim C6 (the two decoder robustness properties): a sub-field with an
unrecognized descriptor is skipped over using its declared length and the
rest of the payload decodes exactly as if the unknown sub-field were
absent; a sub-field whose declared length would overrun the payload end
makes the decode of the containing frame report an error. -/
theorem subfield_skip_and_overrun :
    (∀ d : Nat, ∀ data rest : List Nat, imuFieldMask d = 0 →
      decodeIMU ((data.length + 2) :: d :: (data ++ rest)) = decodeIMU rest) ∧
    (∀ len d : Nat, ∀ data : List Nat, data.length + 2 < len →
      decodeIMU (len :: d :: data) = none) := by
  constructor
  · intro d data rest h
    unfold decodeIMU
    have hlen : ((data.length + 2) :: d :: (data ++ rest)).length =
        (data.length + rest.length + 1) + 1 := by
      simp only [List.length_cons, List.length_append]
      try omega
    rw [hlen, decodeFields_field]
    rw [decodeFields_fuel (data.length + rest.length + 1) rest.length rest
      (by omega) (by omega)]
    cases hres : decodeFields rest.length rest with
    | none => rfl
    | some fs =>
      simp only [Option.map, List.foldl_cons]
      rw [applyIMUField_of_mask_zero h]
  · intro len d data h
    unfold decodeIMU
    have hlen : (len :: d :: data).length = (data.length + 1) + 1 := by
      simp
    rw [hlen, decodeFields_cons]
    rw [if_neg (by omega)]
    rfl

/-- Witness for claim C6: an unknown descriptor 0x99 sub-field skipped
ahead of the rest of the payload, and a sub-field declaring length 9 with
only 3 data bytes available. -/
theorem subfield_skip_and_overrun_witness :
    (imuFieldMask 0x99 = 0 ∧
      decodeIMU ((([1, 2] : List Nat).length + 2) :: 0x99 ::
          ([1, 2] ++ [4, kFieldGyroData, 7, 8])) =
        decodeIMU [4, kFieldGyroData, 7, 8]) ∧
    (([1, 2, 3] : List Nat).length + 2 < 9 ∧
      decodeIMU (9 :: 5 :: [1, 2, 3]) = none) :=
  ⟨⟨by decide,
    subfield_skip_and_overrun.1 0x99 [1, 2] [4, kFieldGyroData, 7, 8] (by decide)⟩,
   ⟨by decide, subfield_skip_and_overrun.2 9 5 [1, 2, 3] (by decide)⟩⟩

/-- Claim C4: the ACK-extraction operation returns the status byte exactly
for a frame that is a valid acknowledgement of the command, one whose
descriptor family matches and whose payload first byte echoes the command
function code, and returns no value for every other frame/command pair. -/
theorem ackErrorCodeFor_spec (p command : Packet) :
    (∀ c : Nat, p.ackErrorCodeFor command = some c ↔
      (p.descriptor = command.descriptor ∧ 2 ≤ p.payload.length ∧
        p.payload.getD 0 0 = command.functionCode ∧ c = p.payload.getD 1 0)) ∧
    (p.ackErrorCodeFor command = none ↔
      ¬(p.descriptor = command.descriptor ∧ 2 ≤ p.payload.length ∧
        p.payload.getD 0 0 = command.functionCode)) := by
  unfold Packet.ackErrorCodeFor
  by_cases h : p.descriptor = command.descriptor ∧ 2 ≤ p.payload.length ∧
      p.payload.getD 0 0 = command.functionCode
  · rw [if_pos h]
    constructor
    · intro c
      constructor
      · intro hc
        injection hc with hc
        exact ⟨h.1, h.2.1, h.2.2, hc.symm⟩
      · intro hcond
        rw [hcond.2.2.2]
    · constructor
      · intro habs
        exact absurd habs (by simp)
      · intro hneg
        exact absurd h hneg
  · rw [if_neg h]
    constructor
    · intro c
      constructor
      · intro habs
        exact absurd habs (by simp)
      · intro hcond
        exact absurd ⟨hcond.1, hcond.2.1, hcond.2.2.1⟩ h
    · exact ⟨fun _ => h, fun _ => rfl⟩

/-- Claim C5: command execution succeeds exactly when the first frame
acknowledging the command carries the success sentinel; a matching frame
with any other status produces a command error with that exact status and
the command descriptor; no matching frame before the reply stream ran out
is a timeout. -/
theorem receiveResponse_correlation (command : Packet) (frames : List Packet) :
    receiveResponse command frames =
      match frames.findSome? (fun f => f.ackErrorCodeFor command) with
      | none => CmdResult.timeout
      | some c =>
        if c = kAckSuccess then CmdResult.success
        else CmdResult.cmdError c command.descriptor := by
  induction frames with
  | nil => rfl
  | cons f rest ih =>
    rw [List.findSome?_cons]
    cases h : f.ackErrorCodeFor command with
    | none =>
      simp only [receiveResponse, h]
      exact ih
    | some c =>
      simp only [receiveResponse, h]

/-- Claim C9: no packet is simultaneously an IMU-data packet and a
filter-data packet, the two streaming descriptor values being distinct, so
a validated streaming frame is routed to at most one callback. -/
theorem data_routing_disjoint (p : Packet) :
    (p.isIMUData && p.isFilterData) = false := by
  unfold Packet.isIMUData Packet.isFilterData
  by_cases h : p.descriptor = kDataIMUDescriptor
  · rw [h]
    decide
  · have hb : (p.descriptor == kDataIMUDescriptor) = false := by
      simp [h]
    rw [hb, Bool.false_and]

/-- Claim C8: a baud-rate request outside the supported set, and a sources
bitmask with a bit outside the allowed set of a data-rate command, are
rejected with a configuration error before any transport action, leaving
the connection untouched. -/
theorem config_rejected_before_io :
    (∀ probe : Nat → Bool, ∀ baud : Nat, baud ∉ kBaudRates →
      selectBaudRate probe baud = ([], some ImuError.invalidBaudRate)) ∧
    (∀ decimation sources : Nat, sources &&& kIMUSourceMask ≠ sources →
      setIMUDataRate decimation sources = ([], some ImuError.invalidSource)) ∧
    (∀ decimation sources : Nat, sources &&& kFilterSourceMask ≠ sources →
      setFilterDataRate decimation sources = ([], some ImuError.invalidSource)) := by
  refine ⟨?_, ?_, ?_⟩
  · intro probe baud h
    unfold selectBaudRate
    rw [if_neg h]
  · intro decimation sources h
    unfold setIMUDataRate
    rw [if_neg h]
  · intro decimation sources h
    unfold setFilterDataRate
    rw [if_neg h]

/-- Witness for claim C8 at the unsupported baud rate 57600 and at the
source bitmask holding only bit 4, outside both allowed sets. -/
theorem config_rejected_before_io_witness :
    ((57600 : Nat) ∉ kBaudRates ∧
      selectBaudRate (fun _ => true) 57600 = ([], some ImuError.invalidBaudRate)) ∧
    ((16 : Nat) &&& kIMUSourceMask ≠ 16 ∧
      setIMUDataRate 1 16 = ([], some ImuError.invalidSource)) ∧
    ((16 : Nat) &&& kFilterSourceMask ≠ 16 ∧
      setFilterDataRate 1 16 = ([], some ImuError.invalidSource)) :=
  ⟨⟨by decide, config_rejected_before_io.1 (fun _ => true) 57600 (by decide)⟩,
   ⟨by decide, config_rejected_before_io.2.1 1 16 (by decide)⟩,
   ⟨by decide, config_rejected_before_io.2.2 1 16 (by decide)⟩⟩

end imu_3dm_gx4
